import Mathlib

/-!
Verification model of `src/aotcompile.cpp`: the AOT native-artifact subsystem
(global value registry, offset table emitter, multi-revision compilation driver
`jl_create_native`, native artifact emission `jl_dump_native`).

Symbols (`llvm::GlobalValue`) are identified by their name, mirroring link-level
identity: a name is either a uniquing-counter-stamped name produced by
`jl_get_global_for` (the stream `cname << globalUnique++`) or a fixed well-known
name such as "jl_sysimg_gvars".  LLVM's module symbol table keeps names unique,
so the (prefix, counter) pair determines the symbol.
-/

namespace AotCompile

/-- A runtime memory address (an opaque `void*` key of `jl_value_to_llvm`). -/
abbrev Addr := Nat

/-- An LLVM global value, identified by its symbol name: either a
counter-stamped name from `jl_get_global_for` or a fixed well-known name. -/
inductive GlobalValue where
  | numbered (pfx : String) (uid : Nat)
  | fixed (nm : String)
deriving DecidableEq, Repr

/-- The `jl_value_llvm` record: the placeholder symbol and its 1-based index. -/
structure jl_value_llvm where
  gv : GlobalValue
  index : Nat
deriving DecidableEq, Repr

/-- Initializer of a module global, as far as the emission step shapes it. -/
inductive GInit where
  | nullinit
  | intval (n : Nat)
  | addrtable (vars : List GlobalValue)
  | addrof (nm : String)
  | bytes (d : List Nat)
deriving DecidableEq, Repr

/-- A global variable inside an LLVM module: name, initializer, constness and
alignment (the payload global gets a 64-byte alignment directive). -/
structure MGlobal where
  gname : GlobalValue
  ginit : GInit
  isconst : Bool
  algn : Nat
deriving DecidableEq, Repr

/-- Process-wide ambient state of the subsystem: the `imaging_mode` latch, the
`globalUnique` name-uniquing counter, the ordered registry symbol list
`jl_sysimg_gvars`, the address map `jl_value_to_llvm`, the shadow module
(its interned variables plus its other contents such as the runtime handle
global), and the client module `M` passed to `jl_get_global_for`. -/
structure AmbientState where
  imaging_mode : Bool
  globalUnique : Nat
  jl_sysimg_gvars : List GlobalValue
  jl_value_to_llvm : List (Addr × jl_value_llvm)
  shadow_output : List GlobalValue
  shadowMisc : List MGlobal
  moduleM : List GlobalValue
deriving DecidableEq, Repr

/-- Fresh process state: empty registry, counter at zero; the shadow module
already holds the runtime-created `jl_RTLD_DEFAULT_handle` global. -/
def initState (imaging : Bool) : AmbientState :=
  { imaging_mode := imaging, globalUnique := 0, jl_sysimg_gvars := [],
    jl_value_to_llvm := [], shadow_output := [],
    shadowMisc := [⟨GlobalValue.fixed "jl_RTLD_DEFAULT_handle", GInit.nullinit, false, 0⟩],
    moduleM := [] }

/-- Lookup in the address map (`std::map<void*, jl_value_llvm>::find`). -/
def lookupAddr (m : List (Addr × jl_value_llvm)) (a : Addr) : Option jl_value_llvm :=
  (m.find? (fun p => decide (p.1 = a))).map (fun p => p.2)

/-- Modelled from the spec: `global_proto` (defined outside this file) builds a
declaration copy of a global; it carries the same symbol name, which is all
that identifies a symbol here. -/
def global_proto (gv : GlobalValue) : GlobalValue := gv

/-- Modelled from the spec: `prepare_global_in` (defined outside this file)
returns the module resident global of the given name, inserting a declaration
copy when the module has none. -/
def prepare_global_in (s : AmbientState) (g : GlobalValue) : GlobalValue × AmbientState :=
  match s.moduleM.find? (fun x => decide (x = g)) with
  | some r => (r, s)
  | none => (g, { s with moduleM := g :: s.moduleM })

/-- The body of `jl_emit_and_add_to_shadow`: in imaging mode create the shadow
declaration, and when a `gvarinit` address is supplied append it to the
registry list and record the (address -> symbol, index) pair, the index being
the registry size after the append.  The execution-engine global mapping and
the calloc slot concern only the in-process session and are not modelled. -/
def jl_emit_and_add_to_shadow (gv : GlobalValue) (gvarinit : Option Addr)
    (s : AmbientState) : AmbientState :=
  if s.imaging_mode then
    let shadowvar := global_proto gv
    let s1 := { s with shadow_output := s.shadow_output ++ [shadowvar] }
    match gvarinit with
    | some a =>
      let gvars := s1.jl_sysimg_gvars ++ [shadowvar]
      { s1 with jl_sysimg_gvars := gvars,
                jl_value_to_llvm := (a, ⟨global_proto gv, gvars.length⟩) :: s1.jl_value_to_llvm }
    | none => s1
  else s

/-- The `Intern` operation `jl_get_global_for`: return the symbol already
mapped to `addr` if present, otherwise create a fresh one named
`cname ++ globalUnique` (post-incrementing the counter), place it into the
module, and run `jl_emit_and_add_to_shadow` with the address as gvarinit. -/
def jl_get_global_for (cname : String) (addr : Addr) (s : AmbientState) :
    GlobalValue × AmbientState :=
  match lookupAddr s.jl_value_to_llvm addr with
  | some e => prepare_global_in s e.gv
  | none =>
    let gv := GlobalValue.numbered cname s.globalUnique
    let s1 := { s with globalUnique := s.globalUnique + 1, moduleM := gv :: s.moduleM }
    (gv, jl_emit_and_add_to_shadow gv (some addr) s1)

/-- A sequence of `Intern` calls, threading the ambient state. -/
def internTrace (ops : List (String × Addr)) (s : AmbientState) : AmbientState :=
  ops.foldl (fun st op => (jl_get_global_for op.1 op.2 st).2) s

/-- The `IndexOf` lookup `jl_get_llvm_gv`: 0 when the address is unknown. -/
def jl_get_llvm_gv (s : AmbientState) (p : Addr) : Nat :=
  match lookupAddr s.jl_value_to_llvm p with
  | none => 0
  | some e => e.index

/-- A method instance (specialization identity) with its validity window and
its inferred return type `this_li->rettype`. -/
structure MethodInstance where
  mid : Nat
  min_world : Nat
  max_world : Nat
  rettype : Nat
deriving DecidableEq, Repr

/-- The entry-point declarations returned by codegen (`jl_llvm_functions_t`). -/
structure jl_llvm_functions_t where
  functionObject : String
  specFunctionObject : String
deriving DecidableEq, Repr

/-- A successful `jl_compile_linfo1` result: the emitted IR fragment (the
function names it defines), the declarations, the declared return type, the
classification flag `api`, and the callee identities it enqueues. -/
structure CompileResult where
  fragment : List String
  decls : jl_llvm_functions_t
  rettype : Nat
  api : Nat
  callees : List MethodInstance
deriving DecidableEq, Repr

/-- One codegen invocation as observed by the driver: which identity, in which
world, and whether codegen produced a result. -/
structure LogEntry where
  mi : MethodInstance
  world : Nat
  ok : Bool
deriving DecidableEq, Repr

/-- Driver state: the `emitted` map (insertion order kept), the work queue,
and the instrumentation log of codegen invocations. -/
structure EmitSt where
  emitted : List (MethodInstance × CompileResult)
  workqueue : List MethodInstance
  log : List LogEntry
deriving DecidableEq, Repr

/-- Lookup in an association list keyed by method instance. -/
def lookupMI {α : Type} (m : List (MethodInstance × α)) (mi : MethodInstance) : Option α :=
  (m.find? (fun p => decide (p.1 = mi))).map (fun p => p.2)

/-- Upsert into an association list keyed by method instance
(`std::map::operator[]` followed by assignment). -/
def setMI {α : Type} (m : List (MethodInstance × α)) (mi : MethodInstance) (v : α) :
    List (MethodInstance × α) :=
  match m with
  | [] => [(mi, v)]
  | p :: rest => if p.1 = mi then (mi, v) :: rest else p :: setMI rest mi v

/-- One root iteration of the driver loop in `jl_create_native`: the pass
condition `(worlds == 1 || mi->max_world < jl_world_counter) &&
mi->min_world <= world && world <= mi->max_world`, then the `emitted` dedup
check, then the codegen invocation (inference is folded into the `compile`
oracle, as `jl_compile_linfo1` is handed the possibly-absent source either
way).  The result is kept only when codegen produced a module. -/
def processRoot (compile : MethodInstance → Nat → Option CompileResult)
    (worlds world wc : Nat) (st : EmitSt) (mi : MethodInstance) : EmitSt :=
  if (worlds = 1 ∨ mi.max_world < wc) ∧ mi.min_world ≤ world ∧ world ≤ mi.max_world then
    if (lookupMI st.emitted mi).isSome then st
    else
      match compile mi world with
      | some r =>
          { st with emitted := st.emitted ++ [(mi, r)],
                    workqueue := st.workqueue ++ r.callees,
                    log := st.log ++ [⟨mi, world, true⟩] }
      | none => { st with log := st.log ++ [⟨mi, world, false⟩] }
  else st

/-- Modelled from the spec: `jl_compile_workqueue` (declared in jitlayers.h,
defined outside this file) drains the queue of callee identities discovered
during codegen, compiling each one not already emitted — which may enqueue
further callees — until the queue is empty; `fuel` bounds the recursion. -/
def jl_compile_workqueue (compile : MethodInstance → Nat → Option CompileResult)
    (world : Nat) : Nat → EmitSt → EmitSt
  | 0, st => st
  | Nat.succ fuel, st =>
    match st.workqueue with
    | [] => st
    | mi :: rest =>
      if (lookupMI st.emitted mi).isSome then
        jl_compile_workqueue compile world fuel { st with workqueue := rest }
      else
        match compile mi world with
        | some r =>
            jl_compile_workqueue compile world fuel
              { emitted := st.emitted ++ [(mi, r)], workqueue := rest ++ r.callees,
                log := st.log ++ [⟨mi, world, true⟩] }
        | none =>
            jl_compile_workqueue compile world fuel
              { st with workqueue := rest, log := st.log ++ [⟨mi, world, false⟩] }

/-- State of the merge loop over `emitted`: the function names present in the
session clone, the function table `jl_sysimg_fvars`, and the triple map. -/
structure MergeSt where
  cloneFns : List String
  fvars : List GlobalValue
  fmap : List (MethodInstance × (Nat × Nat × Nat))
deriving DecidableEq, Repr

/-- A function symbol, named by its session-unique codegen name. -/
def fnGV (s : String) : GlobalValue := GlobalValue.fixed s

/-- One step of the merge loop in `jl_create_native`: merge the IR fragment
into the clone, resolve `func` via `getNamedValue(decls.functionObject)` (a
crash — `none` — if absent, as `cast<Function>` rejects null), then mirror the
source exactly: `cfunc` is guarded by `!decls.functionObject.empty()` and
resolved by the same `decls.functionObject` name (not `specFunctionObject`),
so `cfunc` coincides with `func`; push `cfunc` iff it is non-null and
`this_li->rettype == rettype`, assigning it the table size as index; then
unconditionally push `func`; record the `(api, cfunc_id, func_id)` triple. -/
def mergeStep (st : MergeSt) (mi : MethodInstance) (r : CompileResult) : Option MergeSt :=
  if r.decls.functionObject ∈ st.cloneFns ++ r.fragment then
    if r.decls.functionObject ≠ "" ∧ mi.rettype = r.rettype then
      some ⟨st.cloneFns ++ r.fragment,
            (st.fvars ++ [fnGV r.decls.functionObject]) ++ [fnGV r.decls.functionObject],
            setMI st.fmap mi (r.api, st.fvars.length + 1, st.fvars.length + 2)⟩
    else
      some ⟨st.cloneFns ++ r.fragment,
            st.fvars ++ [fnGV r.decls.functionObject],
            setMI st.fmap mi (r.api, 0, st.fvars.length + 1)⟩
  else none

/-- The merge loop over all emitted specializations. -/
def mergeEmitted : List (MethodInstance × CompileResult) → MergeSt → Option MergeSt
  | [], st => some st
  | (mi, r) :: rest, st =>
    match mergeStep st mi r with
    | some st2 => mergeEmitted rest st2
    | none => none

/-- The session descriptor `jl_native_code_desc_t`. -/
structure jl_native_code_desc_t where
  M : List MGlobal
  jl_sysimg_fvars : List GlobalValue
  jl_sysimg_gvars : List GlobalValue
  jl_fvar_map : List (MethodInstance × (Nat × Nat × Nat))
deriving DecidableEq, Repr

/-- The private session module: a clone of the shadow module (its
miscellaneous contents plus the interned shadow variables, cloning preserves
symbol names). -/
def cloneShadow (s : AmbientState) : List MGlobal :=
  s.shadowMisc ++ s.shadow_output.map (fun g => ⟨g, GInit.nullinit, false, 0⟩)

/-- Result of `jl_create_native`, with instrumentation: the descriptor (`none`
on a merge-time crash), the codegen-invocation log, and the list of
specializations merged into the session module, in merge order. -/
structure CreateResult where
  desc : Option jl_native_code_desc_t
  log : List LogEntry
  merged : List MethodInstance
deriving DecidableEq, Repr

/-- One pass of the driver loop: `if (!world) continue;` skips both the root
iteration and the queue drain; otherwise iterate the roots and then drain the
work queue. -/
def driverPass (compile : MethodInstance → Nat → Option CompileResult)
    (worlds world wc fuel : Nat) (methods : List MethodInstance)
    (st : EmitSt) : EmitSt :=
  if world = 0 then st
  else jl_compile_workqueue compile world fuel
         (methods.foldl (processRoot compile worlds world wc) st)

/-- The two driver passes of `jl_create_native`: `worlds = 2` with
`world = jl_typeinf_world` (`tiw`), then `worlds = 1` with
`world = jl_world_counter` (`wc`). -/
def driverRun (compile : MethodInstance → Nat → Option CompileResult)
    (fuel wc tiw : Nat) (methods : List MethodInstance) : EmitSt :=
  driverPass compile 1 wc wc fuel methods
    (driverPass compile 2 tiw wc fuel methods ⟨[], [], []⟩)

/-- The `CreateSession` entry point `jl_create_native`: the two driver passes,
then the merge loop building the function table and triple map over the
session clone, and the registry snapshot. -/
def jl_create_native (compile : MethodInstance → Nat → Option CompileResult)
    (fuel : Nat) (wc tiw : Nat) (methods : List MethodInstance)
    (s : AmbientState) : CreateResult :=
  match mergeEmitted (driverRun compile fuel wc tiw methods).emitted ⟨[], [], []⟩ with
  | some mst =>
      { desc := some ⟨cloneShadow s, mst.fvars, s.jl_sysimg_gvars, mst.fmap⟩,
        log := (driverRun compile fuel wc tiw methods).log,
        merged := (driverRun compile fuel wc tiw methods).emitted.map (fun p => p.1) }
  | none =>
      { desc := none, log := (driverRun compile fuel wc tiw methods).log,
        merged := (driverRun compile fuel wc tiw methods).emitted.map (fun p => p.1) }

/-- The `TableIndicesOf` lookup `jl_get_function_id`: assign the stored triple
to the three output locations when the instance is found; otherwise leave all
three untouched.  Arguments `api`, `func_idx`, `specfunc_idx` carry the prior
contents of the output locations; the returned triple is their final
contents. -/
def jl_get_function_id (d : jl_native_code_desc_t) (mi : MethodInstance)
    (api func_idx specfunc_idx : Nat) : Nat × Nat × Nat :=
  match lookupMI d.jl_fvar_map mi with
  | some t => t
  | none => (api, func_idx, specfunc_idx)

/-- Lookup of a named global in a module (`Module::getNamedValue`). -/
def getNamedValue (mod : List MGlobal) (n : GlobalValue) : Option MGlobal :=
  mod.find? (fun g => decide (g.gname = n))

/-- The offset table emitter `emit_offset_table`: `assert(!vars.empty())`
(modelled as `none`), then append one constant array global holding the
symbol addresses in list order. -/
def emit_offset_table (mod : List MGlobal) (vars : List GlobalValue)
    (tname : String) : Option (List MGlobal) :=
  if vars.isEmpty then none
  else some (mod ++ [⟨GlobalValue.fixed tname, GInit.addrtable vars, true, 0⟩])

/-- The metadata emission `jl_gen_llvm_globaldata`: both offset tables, the
`jl_globalUnique` scalar holding `globalUnique + 1`, the
`jl_RTLD_DEFAULT_handle_pointer` global (dereferencing the module handle
global — `none` when absent), and the optional payload globals. -/
def jl_gen_llvm_globaldata (d : jl_native_code_desc_t) (globalUnique : Nat)
    (sysimg : Option (List Nat)) : Option (List MGlobal) :=
  match emit_offset_table d.M d.jl_sysimg_gvars "jl_sysimg_gvars" with
  | none => none
  | some m1 =>
    match emit_offset_table m1 d.jl_sysimg_fvars "jl_sysimg_fvars" with
    | none => none
    | some m2 =>
      match getNamedValue (m2 ++ [⟨GlobalValue.fixed "jl_globalUnique",
                                   GInit.intval (globalUnique + 1), true, 0⟩])
              (GlobalValue.fixed "jl_RTLD_DEFAULT_handle") with
      | none => none
      | some _ =>
        match sysimg with
        | some bs =>
            some (m2 ++ [⟨GlobalValue.fixed "jl_globalUnique",
                          GInit.intval (globalUnique + 1), true, 0⟩,
                         ⟨GlobalValue.fixed "jl_RTLD_DEFAULT_handle_pointer",
                          GInit.addrof "jl_RTLD_DEFAULT_handle", true, 0⟩,
                         ⟨GlobalValue.fixed "jl_system_image_data", GInit.bytes bs, false, 64⟩,
                         ⟨GlobalValue.fixed "jl_system_image_size",
                          GInit.intval bs.length, true, 0⟩])
        | none =>
            some (m2 ++ [⟨GlobalValue.fixed "jl_globalUnique",
                          GInit.intval (globalUnique + 1), true, 0⟩,
                         ⟨GlobalValue.fixed "jl_RTLD_DEFAULT_handle_pointer",
                          GInit.addrof "jl_RTLD_DEFAULT_handle", true, 0⟩])

/-- Which output destinations an emission call requests. -/
structure DumpReq where
  unopt_bc : Bool
  bc : Bool
  obj : Bool
deriving DecidableEq, Repr

/-- Outcomes of the external file/target operations: whether each
`openFileForWrite` succeeds, and whether the target supports object
emission (`addPassesToEmitFile` returning false). -/
structure DumpEnv where
  openUnopt : Bool
  openBC : Bool
  openObj : Bool
  objSupported : Bool
deriving DecidableEq, Repr

/-- Stages of the legacy pass pipeline assembled by `jl_dump_native`. -/
inductive Stage where
  | targetPasses
  | unoptWriter
  | optPasses
  | bcWriter
  | objWriter
deriving DecidableEq, Repr

/-- Pipeline assembly of `jl_dump_native`: target passes first; the
pre-optimization bitcode writer iff requested and its file opened; the
optimization passes iff bitcode or object output was requested; the
post-optimization bitcode writer iff requested and opened; the object writer
iff requested, opened and supported.  Each failure yields a diagnostic and
skips only its own writer. -/
def buildPipeline (req : DumpReq) (env : DumpEnv) : List Stage × List String :=
  let pm : List Stage := [Stage.targetPasses]
  let step1 : List Stage × List String :=
    if req.unopt_bc then
      if env.openUnopt then (pm ++ [Stage.unoptWriter], [])
      else (pm, ["ERROR: failed to open --output-unopt-bc file"])
    else (pm, [])
  let pm1 := if req.bc || req.obj then step1.1 ++ [Stage.optPasses] else step1.1
  let step2 : List Stage × List String :=
    if req.bc then
      if env.openBC then (pm1 ++ [Stage.bcWriter], step1.2)
      else (pm1, step1.2 ++ ["ERROR: failed to open --output-bc file"])
    else (pm1, step1.2)
  if req.obj then
    if env.openObj then
      if env.objSupported then (step2.1 ++ [Stage.objWriter], step2.2)
      else (step2.1, step2.2 ++ ["ERROR: target does not support generation of object files"])
    else (step2.1, step2.2 ++ ["ERROR: failed to open --output-o file"])
  else step2

/-- Result of an emission run: the session module after metadata emission,
the assembled pipeline that ran over it, and the diagnostics reported. -/
structure DumpResult where
  module : List MGlobal
  pipeline : List Stage
  diags : List String
deriving DecidableEq, Repr

/-- The `EmitArtifact` entry point `jl_dump_native`: assemble the pipeline,
retarget the module, and when `imaging_mode` is set run
`jl_gen_llvm_globaldata` (an assertion failure there aborts before anything
else happens, modelled as `none` with the state unchanged); then run the
pipeline once and clear the process-wide `imaging_mode` latch. -/
def jl_dump_native (d : jl_native_code_desc_t) (req : DumpReq) (env : DumpEnv)
    (sysimg : Option (List Nat)) (s : AmbientState) :
    Option DumpResult × AmbientState :=
  let pd := buildPipeline req env
  if s.imaging_mode then
    match jl_gen_llvm_globaldata d s.globalUnique sysimg with
    | none => (none, s)
    | some m => (some ⟨m, pd.1, pd.2⟩, { s with imaging_mode := false })
  else (some ⟨d.M, pd.1, pd.2⟩, { s with imaging_mode := false })

/-- Number of successful codegen invocations recorded for one identity. -/
def succCount (log : List LogEntry) (mi : MethodInstance) : Nat :=
  (log.filter (fun e => decide (e.mi = mi) && e.ok)).length

/-- Driver-state invariant: each identity has exactly one successful codegen
invocation iff it is in `emitted`, and the `emitted` keys are distinct. -/
def EmitInv (st : EmitSt) : Prop :=
  (∀ mi, succCount st.log mi = if (lookupMI st.emitted mi).isSome then 1 else 0) ∧
  (st.emitted.map (fun p => p.1)).Nodup

/-- Registry naming invariant: every recorded placeholder symbol carries a
uniquing counter below the current `globalUnique`, and no two registry entries
share a symbol. -/
def RegNames (s : AmbientState) : Prop :=
  (∀ p ∈ s.jl_value_to_llvm,
    ∃ pf u, p.2.gv = GlobalValue.numbered pf u ∧ u < s.globalUnique) ∧
  s.jl_value_to_llvm.Pairwise (fun p q => p.2.gv ≠ q.2.gv)

/-- Registry order invariant: an entry recorded with index `i` sits at
position `i - 1` of the registry symbol list, and `i` is at least 1. -/
def RegIdxInv (s : AmbientState) : Prop :=
  ∀ p ∈ s.jl_value_to_llvm,
    1 ≤ p.2.index ∧ s.jl_sysimg_gvars[p.2.index - 1]? = some p.2.gv

/-- Function-table index bounds: each recorded generic index is in
`[1, len]`, and each recorded specialized index is 0 or in `[1, len]`. -/
def FvarMapBounds (fmap : List (MethodInstance × (Nat × Nat × Nat)))
    (len : Nat) : Prop :=
  ∀ mi api ci fi, (mi, (api, ci, fi)) ∈ fmap →
    1 ≤ fi ∧ fi ≤ len ∧ (ci = 0 ∨ (1 ≤ ci ∧ ci ≤ len))

/-! Concrete scenarios used by the counterexamples and witnesses. -/

/-- A root whose codegen yields only a generic entry point, with matching
inferred and declared return types. -/
def R1 : MethodInstance := ⟨1, 1, 1, 10⟩

/-- Codegen oracle for `R1`: generic entry `jfptr_f_1`, no specialized entry
(`specFunctionObject` empty), declared return type equal to the inferred
one, no callees. -/
def compileR1 : MethodInstance → Nat → Option CompileResult := fun mi _ =>
  if mi = R1 then some ⟨["jfptr_f_1"], ⟨"jfptr_f_1", ""⟩, 10, 7, []⟩ else none

/-- A second generic-only root with matching return type. -/
def R2 : MethodInstance := ⟨2, 1, 1, 20⟩

/-- Codegen oracle for `R2`: generic entry only, matching return type. -/
def compileR2 : MethodInstance → Nat → Option CompileResult := fun mi _ =>
  if mi = R2 then some ⟨["jfptr_g_2"], ⟨"jfptr_g_2", ""⟩, 20, 5, []⟩ else none

/-- A root for which codegen always fails. -/
def Rf : MethodInstance := ⟨3, 1, 1, 0⟩

/-- A codegen oracle that never produces a result. -/
def compileNone : MethodInstance → Nat → Option CompileResult := fun _ _ => none

/-- The session descriptor produced by `jl_create_native` on an empty root
list over a fresh process: empty tables, the clone holding only the
runtime handle global. -/
def emptyDesc : jl_native_code_desc_t :=
  ⟨[⟨GlobalValue.fixed "jl_RTLD_DEFAULT_handle", GInit.nullinit, false, 0⟩], [], [], []⟩

/-- No output destination requested. -/
def noDest : DumpReq := ⟨false, false, false⟩

/-- All file opens succeed and the target supports object emission. -/
def allOpen : DumpEnv := ⟨true, true, true, true⟩

/-- Ambient state after interning one global at address 1 in imaging mode:
`globalUnique = 1` and one registry entry with index 1. -/
def c4state : AmbientState := internTrace [("jl_global#", 1)] (initState true)

/-- The descriptor `jl_create_native` builds for the root `R1` over
`c4state`: the bug makes both function-table slots hold the generic entry. -/
def c4desc : jl_native_code_desc_t :=
  ⟨[⟨GlobalValue.fixed "jl_RTLD_DEFAULT_handle", GInit.nullinit, false, 0⟩,
    ⟨GlobalValue.numbered "jl_global#" 0, GInit.nullinit, false, 0⟩],
   [fnGV "jfptr_f_1", fnGV "jfptr_f_1"],
   [GlobalValue.numbered "jl_global#" 0],
   [(R1, (7, 1, 2))]⟩

/-- The metadata module emitted for `c4desc` at `globalUnique = 1`. -/
def c4meta : List MGlobal := (jl_gen_llvm_globaldata c4desc 1 none).getD []

/-- The emission result for `c4desc` over `c4state`. -/
def c8r1 : DumpResult :=
  ((jl_dump_native c4desc noDest allOpen none c4state).1).getD ⟨[], [], []⟩

/-! Helper lemmas about the driver state. -/

theorem workqueue_drain_nil (compile : MethodInstance → Nat → Option CompileResult)
    (w fuel : Nat) (em : List (MethodInstance × CompileResult)) (lg : List LogEntry) :
    jl_compile_workqueue compile w fuel ⟨em, [], lg⟩ = ⟨em, [], lg⟩ := by
  cases fuel <;> rfl

theorem lookupMI_cons {α : Type} (p : MethodInstance × α) (m : List (MethodInstance × α))
    (k : MethodInstance) :
    lookupMI (p :: m) k = if p.1 = k then some p.2 else lookupMI m k := by
  by_cases h : p.1 = k <;> simp [lookupMI, List.find?, h]

theorem lookupMI_append {α : Type} (m1 m2 : List (MethodInstance × α)) (k : MethodInstance) :
    lookupMI (m1 ++ m2) k = (lookupMI m1 k).or (lookupMI m2 k) := by
  simp only [lookupMI, List.find?_append]
  cases List.find? (fun p => decide (p.1 = k)) m1 <;> simp [Option.or]

theorem lookupMI_eq_none_iff {α : Type} (m : List (MethodInstance × α)) (k : MethodInstance) :
    lookupMI m k = none ↔ k ∉ m.map (fun p => p.1) := by
  induction m with
  | nil => simp [lookupMI]
  | cons p t ih =>
    rw [lookupMI_cons]
    by_cases h : p.1 = k
    · simp [h]
    · simp only [if_neg h, ih, List.map_cons, List.mem_cons]
      constructor
      · intro hk hor
        rcases hor with h1 | h2
        · exact h h1.symm
        · exact hk h2
      · intro hk h2
        exact hk (Or.inr h2)

theorem succCount_append (l1 l2 : List LogEntry) (mi : MethodInstance) :
    succCount (l1 ++ l2) mi = succCount l1 mi + succCount l2 mi := by
  simp [succCount, List.filter_append]

theorem succCount_singleton_ok (mi k : MethodInstance) (w : Nat) :
    succCount [⟨k, w, true⟩] mi = if k = mi then 1 else 0 := by
  by_cases h : k = mi <;> simp [succCount, List.filter, h]

theorem succCount_singleton_fail (mi k : MethodInstance) (w : Nat) :
    succCount [⟨k, w, false⟩] mi = 0 := by
  simp [succCount, List.filter]

theorem emitInv_insert (st : EmitSt) (mi : MethodInstance) (r : CompileResult)
    (w : Nat) (q : List MethodInstance)
    (hnone : lookupMI st.emitted mi = none) (h : EmitInv st) :
    EmitInv ⟨st.emitted ++ [(mi, r)], q, st.log ++ [⟨mi, w, true⟩]⟩ := by
  constructor
  · intro k
    show succCount (st.log ++ [⟨mi, w, true⟩]) k =
      if (lookupMI (st.emitted ++ [(mi, r)]) k).isSome then 1 else 0
    rw [succCount_append, succCount_singleton_ok, lookupMI_append]
    by_cases hk : mi = k
    · subst hk
      rw [if_pos rfl, hnone, h.1 mi, hnone]
      simp [lookupMI_cons]
    · rw [if_neg hk]
      have hz : lookupMI [(mi, r)] k = none := by simp [lookupMI_cons, hk, lookupMI]
      rw [hz, Option.or_none, Nat.add_zero]
      exact h.1 k
  · show ((st.emitted ++ [(mi, r)]).map (fun p => p.1)).Nodup
    rw [List.map_append, List.nodup_append]
    refine ⟨h.2, by simp, ?_⟩
    intro x hx hx2
    simp only [List.map_cons, List.map_nil, List.mem_singleton] at hx2
    subst hx2
    exact (lookupMI_eq_none_iff _ _).mp hnone hx

theorem emitInv_faillog (st : EmitSt) (mi : MethodInstance) (w : Nat)
    (q : List MethodInstance) (h : EmitInv st) :
    EmitInv ⟨st.emitted, q, st.log ++ [⟨mi, w, false⟩]⟩ := by
  refine ⟨fun k => ?_, h.2⟩
  show succCount (st.log ++ [⟨mi, w, false⟩]) k =
    if (lookupMI st.emitted k).isSome then 1 else 0
  rw [succCount_append, succCount_singleton_fail, Nat.add_zero]
  exact h.1 k

theorem emitInv_processRoot (compile : MethodInstance → Nat → Option CompileResult)
    (ws w wc : Nat) (st : EmitSt) (mi : MethodInstance)
    (h : EmitInv st) : EmitInv (processRoot compile ws w wc st mi) := by
  unfold processRoot
  split
  · split
    · exact h
    · rename_i hnot
      have hnone : lookupMI st.emitted mi = none := by
        cases hl : lookupMI st.emitted mi
        · rfl
        · rw [hl] at hnot; simp at hnot
      split
      · exact emitInv_insert st mi _ w _ hnone h
      · exact emitInv_faillog st mi w _ h
  · exact h

theorem emitInv_foldl (compile : MethodInstance → Nat → Option CompileResult)
    (ws w wc : Nat) (ms : List MethodInstance) (st : EmitSt)
    (h : EmitInv st) : EmitInv (ms.foldl (processRoot compile ws w wc) st) := by
  induction ms generalizing st with
  | nil => exact h
  | cons m t ih => exact ih _ (emitInv_processRoot compile ws w wc st m h)

theorem emitInv_drain (compile : MethodInstance → Nat → Option CompileResult)
    (w : Nat) (fuel : Nat) (st : EmitSt) (h : EmitInv st) :
    EmitInv (jl_compile_workqueue compile w fuel st) := by
  induction fuel generalizing st with
  | zero => exact h
  | succ f ih =>
    unfold jl_compile_workqueue
    split
    · exact h
    · rename_i mi rest hq
      split
      · exact ih _ h
      · rename_i hnot
        have hnone : lookupMI st.emitted mi = none := by
          cases hl : lookupMI st.emitted mi
          · rfl
          · rw [hl] at hnot; simp at hnot
        split
        · exact ih _ (emitInv_insert st mi _ w _ hnone h)
        · exact ih _ (emitInv_faillog st mi w _ h)

theorem emitInv_driverPass (compile : MethodInstance → Nat → Option CompileResult)
    (ws w wc fuel : Nat) (ms : List MethodInstance) (st : EmitSt)
    (h : EmitInv st) : EmitInv (driverPass compile ws w wc fuel ms st) := by
  unfold driverPass
  split
  · exact h
  · exact emitInv_drain compile w fuel _ (emitInv_foldl compile ws w wc ms st h)

theorem emitInv_driverRun (compile : MethodInstance → Nat → Option CompileResult)
    (fuel wc tiw : Nat) (ms : List MethodInstance) :
    EmitInv (driverRun compile fuel wc tiw ms) := by
  unfold driverRun
  refine emitInv_driverPass _ _ _ _ _ _ _ (emitInv_driverPass _ _ _ _ _ _ _ ?_)
  exact ⟨fun k => rfl, List.nodup_nil⟩

theorem create_log_eq (compile : MethodInstance → Nat → Option CompileResult)
    (fuel wc tiw : Nat) (ms : List MethodInstance) (s : AmbientState) :
    (jl_create_native compile fuel wc tiw ms s).log =
      (driverRun compile fuel wc tiw ms).log := by
  unfold jl_create_native
  split <;> rfl

theorem create_merged_eq (compile : MethodInstance → Nat → Option CompileResult)
    (fuel wc tiw : Nat) (ms : List MethodInstance) (s : AmbientState) :
    (jl_create_native compile fuel wc tiw ms s).merged =
      (driverRun compile fuel wc tiw ms).emitted.map (fun p => p.1) := by
  unfold jl_create_native
  split <;> rfl

/-! Helper lemmas about the registry and `Intern`. -/

theorem prepare_global_in_fst (s : AmbientState) (g : GlobalValue) :
    (prepare_global_in s g).1 = g := by
  unfold prepare_global_in
  cases hf : s.moduleM.find? (fun x => decide (x = g)) with
  | none => rfl
  | some r =>
    have hr := List.find?_some hf
    simp only [decide_eq_true_eq] at hr
    simp [hr]

theorem prepare_global_in_state (s : AmbientState) (g : GlobalValue) :
    (prepare_global_in s g).2.jl_value_to_llvm = s.jl_value_to_llvm ∧
    (prepare_global_in s g).2.globalUnique = s.globalUnique ∧
    (prepare_global_in s g).2.jl_sysimg_gvars = s.jl_sysimg_gvars ∧
    (prepare_global_in s g).2.imaging_mode = s.imaging_mode := by
  unfold prepare_global_in
  cases s.moduleM.find? (fun x => decide (x = g)) <;> exact ⟨rfl, rfl, rfl, rfl⟩

theorem intern_hit_fst (s : AmbientState) (e : jl_value_llvm) (c : String) (a : Addr)
    (hl : lookupAddr s.jl_value_to_llvm a = some e) :
    (jl_get_global_for c a s).1 = e.gv := by
  unfold jl_get_global_for
  rw [hl]
  exact prepare_global_in_fst s e.gv

theorem intern_hit_state (s : AmbientState) (e : jl_value_llvm) (c : String) (a : Addr)
    (hl : lookupAddr s.jl_value_to_llvm a = some e) :
    (jl_get_global_for c a s).2.jl_value_to_llvm = s.jl_value_to_llvm ∧
    (jl_get_global_for c a s).2.globalUnique = s.globalUnique ∧
    (jl_get_global_for c a s).2.jl_sysimg_gvars = s.jl_sysimg_gvars ∧
    (jl_get_global_for c a s).2.imaging_mode = s.imaging_mode := by
  unfold jl_get_global_for
  rw [hl]
  exact prepare_global_in_state s e.gv

theorem intern_miss_fst (s : AmbientState) (c : String) (a : Addr)
    (hl : lookupAddr s.jl_value_to_llvm a = none) :
    (jl_get_global_for c a s).1 = GlobalValue.numbered c s.globalUnique := by
  unfold jl_get_global_for
  rw [hl]

theorem intern_miss_state (s : AmbientState) (c : String) (a : Addr)
    (hl : lookupAddr s.jl_value_to_llvm a = none) (him : s.imaging_mode = true) :
    (jl_get_global_for c a s).2.jl_value_to_llvm =
      (a, ⟨GlobalValue.numbered c s.globalUnique, s.jl_sysimg_gvars.length + 1⟩) ::
        s.jl_value_to_llvm ∧
    (jl_get_global_for c a s).2.globalUnique = s.globalUnique + 1 ∧
    (jl_get_global_for c a s).2.jl_sysimg_gvars =
      s.jl_sysimg_gvars ++ [GlobalValue.numbered c s.globalUnique] ∧
    (jl_get_global_for c a s).2.imaging_mode = s.imaging_mode := by
  unfold jl_get_global_for
  rw [hl]
  unfold jl_emit_and_add_to_shadow
  simp [him, global_proto]

theorem intern_miss_state_noimg (s : AmbientState) (c : String) (a : Addr)
    (hl : lookupAddr s.jl_value_to_llvm a = none) (him : s.imaging_mode = false) :
    (jl_get_global_for c a s).2.jl_value_to_llvm = s.jl_value_to_llvm ∧
    (jl_get_global_for c a s).2.globalUnique = s.globalUnique + 1 ∧
    (jl_get_global_for c a s).2.jl_sysimg_gvars = s.jl_sysimg_gvars ∧
    (jl_get_global_for c a s).2.imaging_mode = s.imaging_mode := by
  unfold jl_get_global_for
  rw [hl]
  unfold jl_emit_and_add_to_shadow
  simp [him]

theorem intern_imaging (s : AmbientState) (c : String) (a : Addr) :
    (jl_get_global_for c a s).2.imaging_mode = s.imaging_mode := by
  cases hl : lookupAddr s.jl_value_to_llvm a with
  | some e => exact (intern_hit_state s e c a hl).2.2.2
  | none =>
    cases him : s.imaging_mode with
    | true => exact (intern_miss_state s c a hl him).2.2.2.trans him
    | false => exact (intern_miss_state_noimg s c a hl him).2.2.2.trans him

theorem internTrace_cons (op : String × Addr) (t : List (String × Addr)) (s : AmbientState) :
    internTrace (op :: t) s = internTrace t (jl_get_global_for op.1 op.2 s).2 := rfl

theorem internTrace_imaging (ops : List (String × Addr)) (s : AmbientState) :
    (internTrace ops s).imaging_mode = s.imaging_mode := by
  induction ops generalizing s with
  | nil => rfl
  | cons op t ih =>
    rw [internTrace_cons, ih, intern_imaging]

theorem lookupAddr_mem (m : List (Addr × jl_value_llvm)) (a : Addr) (e : jl_value_llvm)
    (h : lookupAddr m a = some e) : ∃ p, p ∈ m ∧ p.1 = a ∧ p.2 = e := by
  unfold lookupAddr at h
  cases hf : m.find? (fun p => decide (p.1 = a)) with
  | none => rw [hf] at h; cases h
  | some p =>
    rw [hf] at h
    have hm := List.mem_of_find?_eq_some hf
    have hp := List.find?_some hf
    simp only [decide_eq_true_eq] at hp
    exact ⟨p, hm, hp, by simpa using h⟩

theorem lookupAddr_cons_ne (x : Addr × jl_value_llvm) (m : List (Addr × jl_value_llvm))
    (a : Addr) (hne : x.1 ≠ a) :
    lookupAddr (x :: m) a = lookupAddr m a := by
  simp [lookupAddr, List.find?, hne]

theorem regNames_intern (c : String) (a : Addr) (s : AmbientState) (h : RegNames s) :
    RegNames (jl_get_global_for c a s).2 := by
  cases hl : lookupAddr s.jl_value_to_llvm a with
  | some e =>
    have hs := intern_hit_state s e c a hl
    unfold RegNames
    rw [hs.1, hs.2.1]
    exact h
  | none =>
    cases him : s.imaging_mode with
    | false =>
      have hs := intern_miss_state_noimg s c a hl him
      unfold RegNames
      rw [hs.1, hs.2.1]
      refine ⟨fun p hp => ?_, h.2⟩
      obtain ⟨pf, u, hgv, hu⟩ := h.1 p hp
      exact ⟨pf, u, hgv, Nat.lt_succ_of_lt hu⟩
    | true =>
      have hs := intern_miss_state s c a hl him
      unfold RegNames
      rw [hs.1, hs.2.1]
      constructor
      · intro p hp
        rcases List.mem_cons.mp hp with h1 | h2
        · subst h1
          exact ⟨c, s.globalUnique, rfl, Nat.lt_succ_self _⟩
        · obtain ⟨pf, u, hgv, hu⟩ := h.1 p h2
          exact ⟨pf, u, hgv, Nat.lt_succ_of_lt hu⟩
      · refine List.Pairwise.cons ?_ h.2
        intro q hq
        obtain ⟨pf, u, hgv, hu⟩ := h.1 q hq
        show GlobalValue.numbered c s.globalUnique ≠ q.2.gv
        rw [hgv]
        intro hc
        injection hc with hx hy
        omega

theorem regNames_internTrace (ops : List (String × Addr)) (s : AmbientState)
    (h : RegNames s) : RegNames (internTrace ops s) := by
  induction ops generalizing s with
  | nil => exact h
  | cons op t ih =>
    rw [internTrace_cons]
    exact ih _ (regNames_intern op.1 op.2 s h)

theorem regNames_initState (b : Bool) : RegNames (initState b) :=
  ⟨fun p hp => absurd hp (List.not_mem_nil p), List.Pairwise.nil⟩

theorem regIdx_intern (c : String) (a : Addr) (s : AmbientState) (h : RegIdxInv s) :
    RegIdxInv (jl_get_global_for c a s).2 := by
  cases hl : lookupAddr s.jl_value_to_llvm a with
  | some e =>
    have hs := intern_hit_state s e c a hl
    unfold RegIdxInv
    rw [hs.1, hs.2.2.1]
    exact h
  | none =>
    cases him : s.imaging_mode with
    | false =>
      have hs := intern_miss_state_noimg s c a hl him
      unfold RegIdxInv
      rw [hs.1, hs.2.2.1]
      exact h
    | true =>
      have hs := intern_miss_state s c a hl him
      unfold RegIdxInv
      rw [hs.1, hs.2.2.1]
      intro p hp
      rcases List.mem_cons.mp hp with h1 | h2
      · subst h1
        refine ⟨Nat.le_add_left 1 _, ?_⟩
        simp only [Nat.add_sub_cancel]
        exact List.getElem?_concat_length _ _
      · obtain ⟨h1le, hidx⟩ := h p h2
        refine ⟨h1le, ?_⟩
        have hlt : p.2.index - 1 < s.jl_sysimg_gvars.length :=
          (List.getElem?_eq_some.mp hidx).1
        rw [List.getElem?_append, if_pos hlt]
        exact hidx

theorem regIdx_internTrace (ops : List (String × Addr)) (s : AmbientState)
    (h : RegIdxInv s) : RegIdxInv (internTrace ops s) := by
  induction ops generalizing s with
  | nil => exact h
  | cons op t ih =>
    rw [internTrace_cons]
    exact ih _ (regIdx_intern op.1 op.2 s h)

theorem regIdx_initState (b : Bool) : RegIdxInv (initState b) :=
  fun p hp => absurd hp (List.not_mem_nil p)

theorem intern_second_same (c1 c2 : String) (a : Addr) (s : AmbientState)
    (him : s.imaging_mode = true) :
    jl_get_global_for c2 a (jl_get_global_for c1 a s).2 = jl_get_global_for c1 a s := by
  cases hl : lookupAddr s.jl_value_to_llvm a with
  | some e =>
    have h1 : jl_get_global_for c1 a s = prepare_global_in s e.gv := by
      unfold jl_get_global_for
      rw [hl]
    rw [h1]
    unfold prepare_global_in
    cases hf : s.moduleM.find? (fun x => decide (x = e.gv)) with
    | some r =>
      show jl_get_global_for c2 a s = (r, s)
      unfold jl_get_global_for
      simp only [hl]
      unfold prepare_global_in
      simp only [hf]
    | none =>
      show jl_get_global_for c2 a { s with moduleM := e.gv :: s.moduleM } = _
      unfold jl_get_global_for
      rw [show ({ s with moduleM := e.gv :: s.moduleM } : AmbientState).jl_value_to_llvm
            = s.jl_value_to_llvm from rfl]
      simp only [hl]
      unfold prepare_global_in
      simp [List.find?]
  | none =>
    have h1 : jl_get_global_for c1 a s =
        (GlobalValue.numbered c1 s.globalUnique,
         jl_emit_and_add_to_shadow (GlobalValue.numbered c1 s.globalUnique) (some a)
           { s with globalUnique := s.globalUnique + 1,
                    moduleM := GlobalValue.numbered c1 s.globalUnique :: s.moduleM }) := by
      unfold jl_get_global_for
      rw [hl]
    rw [h1]
    unfold jl_emit_and_add_to_shadow
    simp only [him, global_proto, if_true]
    unfold jl_get_global_for
    simp [lookupAddr, List.find?, prepare_global_in]

theorem intern_distinct (c1 c2 : String) (a1 a2 : Addr) (s : AmbientState)
    (him : s.imaging_mode = true) (hreg : RegNames s) (hne : a1 ≠ a2) :
    (jl_get_global_for c2 a2 (jl_get_global_for c1 a1 s).2).1 ≠
      (jl_get_global_for c1 a1 s).1 := by
  cases hl1 : lookupAddr s.jl_value_to_llvm a1 with
  | some e1 =>
    rw [intern_hit_fst s e1 c1 a1 hl1]
    have hs := intern_hit_state s e1 c1 a1 hl1
    obtain ⟨p1, hp1m, hp1a, hp1e⟩ := lookupAddr_mem _ _ _ hl1
    obtain ⟨pf1, u1, hgv1, hu1⟩ := hreg.1 p1 hp1m
    cases hl2 : lookupAddr s.jl_value_to_llvm a2 with
    | some e2 =>
      have hl2b : lookupAddr (jl_get_global_for c1 a1 s).2.jl_value_to_llvm a2 = some e2 := by
        rw [hs.1]; exact hl2
      rw [intern_hit_fst _ e2 c2 a2 hl2b]
      obtain ⟨p2, hp2m, hp2a, hp2e⟩ := lookupAddr_mem _ _ _ hl2
      have hpne : p2 ≠ p1 := by
        intro hq
        exact hne (by rw [← hp1a, ← hp2a, hq])
      have hsym : Symmetric (fun p q : Addr × jl_value_llvm => p.2.gv ≠ q.2.gv) :=
        fun x y hxy => Ne.symm hxy
      have hd := (hreg.2.forall hsym) hp2m hp1m hpne
      rw [← hp2e, ← hp1e]
      exact hd
    | none =>
      have hl2b : lookupAddr (jl_get_global_for c1 a1 s).2.jl_value_to_llvm a2 = none := by
        rw [hs.1]; exact hl2
      rw [intern_miss_fst _ c2 a2 hl2b, hs.2.1, ← hp1e, hgv1]
      intro hc
      injection hc with hx hy
      omega
  | none =>
    rw [intern_miss_fst s c1 a1 hl1]
    have hm := intern_miss_state s c1 a1 hl1 him
    cases hl2 : lookupAddr s.jl_value_to_llvm a2 with
    | some e2 =>
      have hl2b : lookupAddr (jl_get_global_for c1 a1 s).2.jl_value_to_llvm a2 = some e2 := by
        rw [hm.1, lookupAddr_cons_ne _ _ _ (by simpa using hne)]
        exact hl2
      rw [intern_hit_fst _ e2 c2 a2 hl2b]
      obtain ⟨p2, hp2m, hp2a, hp2e⟩ := lookupAddr_mem _ _ _ hl2
      obtain ⟨pf2, u2, hgv2, hu2⟩ := hreg.1 p2 hp2m
      rw [← hp2e, hgv2]
      intro hc
      injection hc with hx hy
      omega
    | none =>
      have hl2b : lookupAddr (jl_get_global_for c1 a1 s).2.jl_value_to_llvm a2 = none := by
        rw [hm.1, lookupAddr_cons_ne _ _ _ (by simpa using hne)]
        exact hl2
      rw [intern_miss_fst _ c2 a2 hl2b, hm.2.1]
      intro hc
      injection hc with hx hy
      omega

/-! Helper lemmas about the merge loop and the emission step. -/

theorem mem_setMI {α : Type} (m : List (MethodInstance × α)) (k : MethodInstance) (v : α)
    (p : MethodInstance × α) (hp : p ∈ setMI m k v) : p = (k, v) ∨ p ∈ m := by
  induction m with
  | nil => simpa [setMI] using hp
  | cons q t ih =>
    unfold setMI at hp
    by_cases h : q.1 = k
    · rw [if_pos h] at hp
      rcases List.mem_cons.mp hp with h1 | h2
      · exact Or.inl h1
      · exact Or.inr (List.mem_cons_of_mem _ h2)
    · rw [if_neg h] at hp
      rcases List.mem_cons.mp hp with h1 | h2
      · exact Or.inr (h1 ▸ List.mem_cons_self _ _)
      · rcases ih h2 with ha | hb
        · exact Or.inl ha
        · exact Or.inr (List.mem_cons_of_mem _ hb)

theorem lookupMI_setMI_self {α : Type} (m : List (MethodInstance × α))
    (k : MethodInstance) (v : α) : lookupMI (setMI m k v) k = some v := by
  induction m with
  | nil => simp [setMI, lookupMI_cons]
  | cons p t ih =>
    unfold setMI
    by_cases h : p.1 = k
    · rw [if_pos h, lookupMI_cons, if_pos rfl]
    · rw [if_neg h, lookupMI_cons, if_neg h]
      exact ih

theorem lookupMI_setMI_ne {α : Type} (m : List (MethodInstance × α))
    (k k2 : MethodInstance) (v : α) (h : k ≠ k2) :
    lookupMI (setMI m k v) k2 = lookupMI m k2 := by
  induction m with
  | nil => simp [setMI, lookupMI_cons, lookupMI, h]
  | cons p t ih =>
    unfold setMI
    by_cases hp : p.1 = k
    · rw [if_pos hp, lookupMI_cons, lookupMI_cons]
      have hp2 : ¬ p.1 = k2 := by rw [hp]; exact h
      rw [if_neg h, if_neg hp2]
    · rw [if_neg hp, lookupMI_cons, lookupMI_cons, ih]

theorem mergeStep_shape (st : MergeSt) (mi : MethodInstance) (r : CompileResult)
    (st2 : MergeSt) (h : mergeStep st mi r = some st2) :
    ∃ ci fi ext, st2.fmap = setMI st.fmap mi (r.api, ci, fi) ∧
      st2.fvars = st.fvars ++ ext ∧
      1 ≤ fi ∧ st2.fvars[fi - 1]? = some (fnGV r.decls.functionObject) ∧
      (ci = 0 ∨ (1 ≤ ci ∧ st2.fvars[ci - 1]? = some (fnGV r.decls.functionObject))) := by
  unfold mergeStep at h
  split at h
  · split at h
    · injection h with h
      subst h
      refine ⟨st.fvars.length + 1, st.fvars.length + 2,
        [fnGV r.decls.functionObject, fnGV r.decls.functionObject], rfl, by simp,
        by omega, ?_, Or.inr ⟨by omega, ?_⟩⟩
      · have h1 : st.fvars.length + 2 - 1 =
            (st.fvars ++ [fnGV r.decls.functionObject]).length := by simp
        rw [h1]
        exact List.getElem?_concat_length _ _
      · have h1 : st.fvars.length + 1 - 1 = st.fvars.length := by omega
        rw [h1, List.getElem?_append, if_pos (by simp)]
        exact List.getElem?_concat_length _ _
    · injection h with h
      subst h
      refine ⟨0, st.fvars.length + 1, [fnGV r.decls.functionObject], rfl, rfl,
        by omega, ?_, Or.inl rfl⟩
      have h1 : st.fvars.length + 1 - 1 = st.fvars.length := by omega
      rw [h1]
      exact List.getElem?_concat_length _ _
  · cases h

theorem mergeEmitted_fvars_ext (l : List (MethodInstance × CompileResult))
    (st st2 : MergeSt) (h : mergeEmitted l st = some st2) :
    ∃ ext, st2.fvars = st.fvars ++ ext := by
  induction l generalizing st with
  | nil =>
    unfold mergeEmitted at h
    injection h with h
    subst h
    exact ⟨[], by simp⟩
  | cons p t ih =>
    obtain ⟨mi, r⟩ := p
    unfold mergeEmitted at h
    cases hs : mergeStep st mi r with
    | none => rw [hs] at h; cases h
    | some stm =>
      rw [hs] at h
      obtain ⟨ci, fi, ext1, _, hv1, _⟩ := mergeStep_shape st mi r stm hs
      obtain ⟨ext2, hv2⟩ := ih _ h
      exact ⟨ext1 ++ ext2, by rw [hv2, hv1, List.append_assoc]⟩

theorem mergeEmitted_lookup_frozen (l : List (MethodInstance × CompileResult))
    (st st2 : MergeSt) (mi : MethodInstance) (h : mergeEmitted l st = some st2)
    (hni : mi ∉ l.map (fun p => p.1)) :
    lookupMI st2.fmap mi = lookupMI st.fmap mi := by
  induction l generalizing st with
  | nil =>
    unfold mergeEmitted at h
    injection h with h
    subst h
    rfl
  | cons p t ih =>
    obtain ⟨mi0, r⟩ := p
    simp only [List.map_cons, List.mem_cons] at hni
    push_neg at hni
    unfold mergeEmitted at h
    cases hs : mergeStep st mi0 r with
    | none => rw [hs] at h; cases h
    | some stm =>
      rw [hs] at h
      obtain ⟨ci, fi, ext, hfm, _⟩ := mergeStep_shape st mi0 r stm hs
      rw [ih _ h hni.2, hfm, lookupMI_setMI_ne _ _ _ _ (fun hq => hni.1 (hq.symm))]

theorem mergeEmitted_layout (l : List (MethodInstance × CompileResult))
    (st st2 : MergeSt) (h : mergeEmitted l st = some st2)
    (hkeys : (l.map (fun p => p.1)).Nodup) :
    ∀ mi r, (mi, r) ∈ l →
      ∃ ci fi, lookupMI st2.fmap mi = some (r.api, ci, fi) ∧
        1 ≤ fi ∧ st2.fvars[fi - 1]? = some (fnGV r.decls.functionObject) ∧
        (ci = 0 ∨ (1 ≤ ci ∧ st2.fvars[ci - 1]? = some (fnGV r.decls.functionObject))) := by
  induction l generalizing st with
  | nil => intro mi r hmem; cases hmem
  | cons p t ih =>
    obtain ⟨mi0, r0⟩ := p
    unfold mergeEmitted at h
    cases hs : mergeStep st mi0 r0 with
    | none => rw [hs] at h; cases h
    | some stm =>
      rw [hs] at h
      simp only [List.map_cons, List.nodup_cons] at hkeys
      intro mi r hmem
      rcases List.mem_cons.mp hmem with h1 | h2
      · injection h1 with ha hb
        subst ha
        subst hb
        obtain ⟨ci, fi, ext, hfm, hfv, hfi1, hfip, hcid⟩ := mergeStep_shape st mi r stm hs
        obtain ⟨ext2, hv2⟩ := mergeEmitted_fvars_ext t stm st2 h
        refine ⟨ci, fi, ?_, hfi1, ?_, ?_⟩
        · rw [mergeEmitted_lookup_frozen t stm st2 mi h hkeys.1, hfm, lookupMI_setMI_self]
        · have hlt : fi - 1 < stm.fvars.length := (List.getElem?_eq_some.mp hfip).1
          rw [hv2, List.getElem?_append, if_pos hlt]
          exact hfip
        · rcases hcid with h0 | ⟨hci1, hcip⟩
          · exact Or.inl h0
          · have hlt : ci - 1 < stm.fvars.length := (List.getElem?_eq_some.mp hcip).1
            refine Or.inr ⟨hci1, ?_⟩
            rw [hv2, List.getElem?_append, if_pos hlt]
            exact hcip
      · exact ih _ h hkeys.2 mi r h2

theorem fvarBounds_mergeStep (st : MergeSt) (mi : MethodInstance) (r : CompileResult)
    (st2 : MergeSt) (hstep : mergeStep st mi r = some st2)
    (h : FvarMapBounds st.fmap st.fvars.length) :
    FvarMapBounds st2.fmap st2.fvars.length := by
  unfold mergeStep at hstep
  split at hstep
  · split at hstep
    · injection hstep with hstep
      subst hstep
      intro mi2 api ci fi hp
      simp only [List.length_append, List.length_cons, List.length_nil]
      rcases mem_setMI _ _ _ _ hp with h1 | h2
      · injection h1 with ha hb
        injection hb with hb1 hb2
        injection hb2 with hc hd
        subst hc
        subst hd
        refine ⟨by omega, by omega, Or.inr ⟨by omega, by omega⟩⟩
      · obtain ⟨ha, hb, hc⟩ := h mi2 api ci fi h2
        refine ⟨ha, by omega, ?_⟩
        rcases hc with h0 | ⟨hd, he⟩
        · exact Or.inl h0
        · exact Or.inr ⟨hd, by omega⟩
    · injection hstep with hstep
      subst hstep
      intro mi2 api ci fi hp
      simp only [List.length_append, List.length_cons, List.length_nil]
      rcases mem_setMI _ _ _ _ hp with h1 | h2
      · injection h1 with ha hb
        injection hb with hb1 hb2
        injection hb2 with hc hd
        subst hc
        subst hd
        exact ⟨by omega, by omega, Or.inl rfl⟩
      · obtain ⟨ha, hb, hc⟩ := h mi2 api ci fi h2
        refine ⟨ha, by omega, ?_⟩
        rcases hc with h0 | ⟨hd, he⟩
        · exact Or.inl h0
        · exact Or.inr ⟨hd, by omega⟩
  · cases hstep

theorem fvarBounds_mergeEmitted (l : List (MethodInstance × CompileResult))
    (st st2 : MergeSt) (h : mergeEmitted l st = some st2)
    (hb : FvarMapBounds st.fmap st.fvars.length) :
    FvarMapBounds st2.fmap st2.fvars.length := by
  induction l generalizing st with
  | nil =>
    unfold mergeEmitted at h
    injection h with h
    subst h
    exact hb
  | cons p t ih =>
    obtain ⟨mi, r⟩ := p
    unfold mergeEmitted at h
    cases hs : mergeStep st mi r with
    | none => rw [hs] at h; cases h
    | some stm =>
      rw [hs] at h
      exact ih _ h (fvarBounds_mergeStep st mi r stm hs hb)

theorem emit_offset_table_eq (mod : List MGlobal) (vars : List GlobalValue)
    (tname : String) (m : List MGlobal) (h : emit_offset_table mod vars tname = some m) :
    m = mod ++ [⟨GlobalValue.fixed tname, GInit.addrtable vars, true, 0⟩] := by
  unfold emit_offset_table at h
  split at h
  · cases h
  · injection h with h
    exact h.symm

theorem globaldata_mem (d : jl_native_code_desc_t) (gu : Nat) (sy : Option (List Nat))
    (m : List MGlobal) (h : jl_gen_llvm_globaldata d gu sy = some m) :
    MGlobal.mk (GlobalValue.fixed "jl_sysimg_gvars")
        (GInit.addrtable d.jl_sysimg_gvars) true 0 ∈ m ∧
    MGlobal.mk (GlobalValue.fixed "jl_sysimg_fvars")
        (GInit.addrtable d.jl_sysimg_fvars) true 0 ∈ m ∧
    MGlobal.mk (GlobalValue.fixed "jl_globalUnique")
        (GInit.intval (gu + 1)) true 0 ∈ m := by
  unfold jl_gen_llvm_globaldata at h
  split at h
  · cases h
  · rename_i m1 h1
    split at h
    · cases h
    · rename_i m2 h2
      have e1 := emit_offset_table_eq _ _ _ _ h1
      have e2 := emit_offset_table_eq _ _ _ _ h2
      split at h
      · cases h
      · split at h
        · injection h with h
          subst h
          subst e2
          subst e1
          simp [List.mem_append]
        · injection h with h
          subst h
          subst e2
          subst e1
          simp [List.mem_append]

theorem dump_imaging_module (d : jl_native_code_desc_t) (req : DumpReq) (env : DumpEnv)
    (sy : Option (List Nat)) (s : AmbientState) (res : DumpResult) (s2 : AmbientState)
    (him : s.imaging_mode = true)
    (h : jl_dump_native d req env sy s = (some res, s2)) :
    jl_gen_llvm_globaldata d s.globalUnique sy = some res.module := by
  unfold jl_dump_native at h
  rw [him] at h
  simp only [if_true] at h
  cases hg : jl_gen_llvm_globaldata d s.globalUnique sy with
  | none =>
    rw [hg] at h
    injection h with h1 h2
    cases h1
  | some m =>
    rw [hg] at h
    injection h with h1 h2
    injection h1 with h1
    rw [← h1]

theorem dump_imaging_after (d : jl_native_code_desc_t) (req : DumpReq) (env : DumpEnv)
    (sy : Option (List Nat)) (s : AmbientState) (res : DumpResult) (s2 : AmbientState)
    (h : jl_dump_native d req env sy s = (some res, s2)) :
    s2.imaging_mode = false := by
  unfold jl_dump_native at h
  cases him : s.imaging_mode with
  | true =>
    rw [him] at h
    simp only [if_true] at h
    cases hg : jl_gen_llvm_globaldata d s.globalUnique sy with
    | none =>
      rw [hg] at h
      injection h with h1 h2
      cases h1
    | some m =>
      rw [hg] at h
      injection h with h1 h2
      rw [← h2]
  | false =>
    rw [him] at h
    simp only [Bool.false_eq_true, if_false] at h
    injection h with h1 h2
    rw [← h2]

theorem dump_noimaging (d : jl_native_code_desc_t) (req : DumpReq) (env : DumpEnv)
    (sy : Option (List Nat)) (s : AmbientState) (him : s.imaging_mode = false) :
    jl_dump_native d req env sy s =
      (some ⟨d.M, (buildPipeline req env).1, (buildPipeline req env).2⟩,
       { s with imaging_mode := false }) := by
  unfold jl_dump_native
  rw [him]
  simp only [Bool.false_eq_true, if_false]

theorem create_desc_some (compile : MethodInstance → Nat → Option CompileResult)
    (fuel wc tiw : Nat) (ms : List MethodInstance) (s : AmbientState)
    (d : jl_native_code_desc_t)
    (h : (jl_create_native compile fuel wc tiw ms s).desc = some d) :
    d.jl_sysimg_gvars = s.jl_sysimg_gvars ∧
    FvarMapBounds d.jl_fvar_map d.jl_sysimg_fvars.length := by
  cases hm : mergeEmitted (driverRun compile fuel wc tiw ms).emitted ⟨[], [], []⟩ with
  | none =>
    have hd : (jl_create_native compile fuel wc tiw ms s).desc = none := by
      unfold jl_create_native
      simp only [hm]
    rw [hd] at h
    cases h
  | some mst =>
    have hd : (jl_create_native compile fuel wc tiw ms s).desc =
        some ⟨cloneShadow s, mst.fvars, s.jl_sysimg_gvars, mst.fmap⟩ := by
      unfold jl_create_native
      simp only [hm]
    rw [hd] at h
    injection h with h
    subst h
    refine ⟨rfl, ?_⟩
    exact fvarBounds_mergeEmitted _ _ _ hm
      (fun mi api ci fi hp => absurd hp (List.not_mem_nil _))

theorem create_desc_merge (compile : MethodInstance → Nat → Option CompileResult)
    (fuel wc tiw : Nat) (ms : List MethodInstance) (s : AmbientState)
    (d : jl_native_code_desc_t)
    (h : (jl_create_native compile fuel wc tiw ms s).desc = some d) :
    ∃ mst, mergeEmitted (driverRun compile fuel wc tiw ms).emitted ⟨[], [], []⟩ = some mst ∧
      d.jl_sysimg_fvars = mst.fvars ∧ d.jl_fvar_map = mst.fmap ∧
      d.jl_sysimg_gvars = s.jl_sysimg_gvars := by
  cases hm : mergeEmitted (driverRun compile fuel wc tiw ms).emitted ⟨[], [], []⟩ with
  | none =>
    have hd : (jl_create_native compile fuel wc tiw ms s).desc = none := by
      unfold jl_create_native
      simp only [hm]
    rw [hd] at h
    cases h
  | some mst =>
    have hd2 : (jl_create_native compile fuel wc tiw ms s).desc =
        some ⟨cloneShadow s, mst.fvars, s.jl_sysimg_gvars, mst.fmap⟩ := by
      unfold jl_create_native
      simp only [hm]
    rw [hd2] at h
    injection h with h
    subst h
    exact ⟨mst, rfl, rfl, rfl, rfl⟩

/-! The claim theorems. -/

/-- C1: the spec requires a nonzero specialized-entry index exactly when a
type-specialized entry point was produced and its declared return type matches
the inferred one.  The merge loop instead guards and resolves `cfunc` via
`decls.functionObject` (not `decls.specFunctionObject`): for root `R1`, whose
codegen produces no specialized entry (`specFunctionObject` empty) and a
matching return type, the recorded triple is `(7, 1, 2)` — specialized index 1,
pointing at the generic entry — where the spec requires specialized index 0. -/
theorem c1_specialized_index_bug :
    (compileR1 R1 1).map (fun r => r.decls.specFunctionObject) = some "" ∧
    ((jl_create_native compileR1 0 1 0 [R1] (initState true)).desc.map
       (fun d => lookupMI d.jl_fvar_map R1)) = some (some (7, 1, 2)) := by
  decide

/-- C2: for a single root with no callees and only a generic entry whose
declared return type matches the inferred one, the claim requires a function
table of length 1 and triple `(flag, 0, 1)`; the code produces a table of
length 2 and triple `(5, 1, 2)` because `cfunc` is resolved from
`decls.functionObject`. -/
theorem c2_end_to_end_scenario_bug :
    (compileR2 R2 1).map (fun r => r.decls.specFunctionObject) = some "" ∧
    ((jl_create_native compileR2 0 1 0 [R2] (initState true)).desc.map
       (fun d => (d.jl_sysimg_fvars.length, lookupMI d.jl_fvar_map R2))) =
      some (2, some (5, 1, 2)) := by
  decide

/-- C3 counterexample: a session created from an empty root list has empty
tables; with persistence mode active, emission hits `assert(!vars.empty())`
inside `emit_offset_table` and aborts (`none`) instead of succeeding. -/
theorem c3_counterexample :
    (jl_create_native compileNone 0 0 0 [] (initState true)).desc = some emptyDesc ∧
    (jl_dump_native emptyDesc noDest allOpen none (initState true)).1 = none := by
  decide

/-- C3 (amended): creating a session from an empty root list yields the empty
descriptor, and emitting it with no destinations succeeds — leaving the module
as is, with no tables — only when persistence mode is inactive; with
persistence mode active the empty tables trip the nonempty assertion in
`emit_offset_table` and emission aborts. -/
theorem c3_empty_session_amended (compile : MethodInstance → Nat → Option CompileResult)
    (fuel wc tiw : Nat) (b : Bool) (req : DumpReq) (env : DumpEnv) :
    jl_create_native compile fuel wc tiw [] (initState b) =
      ⟨some emptyDesc, [], []⟩ ∧
    (jl_dump_native emptyDesc req env none (initState false)).1 =
      some ⟨emptyDesc.M, (buildPipeline req env).1, (buildPipeline req env).2⟩ ∧
    (jl_dump_native emptyDesc req env none (initState true)).1 = none := by
  refine ⟨?_, ?_, rfl⟩
  · unfold jl_create_native driverRun driverPass
    simp only [List.foldl_nil]
    rw [workqueue_drain_nil, ite_self, workqueue_drain_nil, ite_self]
    rfl
  · exact congrArg Prod.fst (dump_noimaging emptyDesc req env none (initState false) rfl)

/-- C4 counterexample: after one Intern in imaging mode the registry's
high-water index is 1 and `globalUnique` is 1, yet the emitted
`jl_globalUnique` scalar holds 2 (= `globalUnique + 1`), not the high-water
index 1. -/
theorem c4_counterexample :
    c4state.globalUnique = 1 ∧
    c4state.jl_sysimg_gvars.length = 1 ∧
    (jl_create_native compileR1 0 1 0 [R1] c4state).desc = some c4desc ∧
    ((jl_dump_native c4desc noDest allOpen none c4state).1.map
        (fun r => getNamedValue r.module (GlobalValue.fixed "jl_globalUnique"))) =
      some (some ⟨GlobalValue.fixed "jl_globalUnique", GInit.intval 2, true, 0⟩) ∧
    (2 : Nat) ≠ 1 := by
  decide

/-- C4 (amended): whenever the metadata emission succeeds it writes the
scalar `jl_globalUnique` holding the process-wide name-uniquing counter plus
one — a strict upper bound on every assigned registry index — rather than the
registry's high-water index itself. -/
theorem c4_amended_counter_value (d : jl_native_code_desc_t) (gu : Nat)
    (sy : Option (List Nat)) (m : List MGlobal)
    (h : jl_gen_llvm_globaldata d gu sy = some m) :
    MGlobal.mk (GlobalValue.fixed "jl_globalUnique") (GInit.intval (gu + 1)) true 0 ∈ m :=
  (globaldata_mem d gu sy m h).2.2

theorem c4_amended_counter_value_witness :
    jl_gen_llvm_globaldata c4desc 1 none = some c4meta ∧
    MGlobal.mk (GlobalValue.fixed "jl_globalUnique") (GInit.intval 2) true 0 ∈ c4meta :=
  ⟨by decide, c4_amended_counter_value c4desc 1 none c4meta (by decide)⟩

/-- C5 counterexample: with the same failing root listed twice, the driver
passes it to codegen twice within one `jl_create_native` call — the dedup is
keyed on successful compilation, so the claim's "at most once" fails. -/
theorem c5_counterexample :
    (jl_create_native compileNone 0 1 0 [Rf, Rf] (initState true)).log =
      [⟨Rf, 1, false⟩, ⟨Rf, 1, false⟩] ∧
    ¬ (((jl_create_native compileNone 0 1 0 [Rf, Rf] (initState true)).log.filter
          (fun e => decide (e.mi = Rf))).length ≤ 1) := by
  decide

/-- C5 (amended): within one `jl_create_native` call every specialization
identity is merged into the session module at most once, and is successfully
compiled at most once — the merged identities are pairwise distinct and each
identity has at most one successful codegen invocation; an identity whose
codegen produces no result may be handed to codegen again (for example when it
occurs twice in the root list). -/
theorem c5_amended_dedup (compile : MethodInstance → Nat → Option CompileResult)
    (fuel wc tiw : Nat) (methods : List MethodInstance) (s : AmbientState) :
    (jl_create_native compile fuel wc tiw methods s).merged.Nodup ∧
    ∀ mi, succCount ((jl_create_native compile fuel wc tiw methods s).log) mi ≤ 1 := by
  have hinv := emitInv_driverRun compile fuel wc tiw methods
  constructor
  · rw [create_merged_eq]
    exact hinv.2
  · intro mi
    rw [create_log_eq, hinv.1 mi]
    split
    · exact Nat.le_refl 1
    · exact Nat.zero_le 1

/-- C6 counterexample: without persistence mode `jl_get_global_for` records
no registry entry, so a second Intern of the same address creates and returns
a fresh symbol instead of the first one — the claim's unconditional
idempotence fails. -/
theorem c6_counterexample :
    (jl_get_global_for "jl_global#" 5
        (jl_get_global_for "jl_global#" 5 (initState false)).2).1 ≠
      (jl_get_global_for "jl_global#" 5 (initState false)).1 := by
  decide

/-- C6 (amended): when persistence mode is active, Intern is idempotent per
address — a second call with the same address returns the same placeholder
symbol and leaves the whole ambient state (hence the registry and its
high-water index) unchanged — and Intern calls on two distinct addresses
return distinct symbols. -/
theorem c6_amended_intern_idempotent (ops : List (String × Addr)) (c1 c2 : String)
    (a1 a2 : Addr) (hne : a1 ≠ a2) :
    jl_get_global_for c2 a1 (jl_get_global_for c1 a1 (internTrace ops (initState true))).2 =
      jl_get_global_for c1 a1 (internTrace ops (initState true)) ∧
    (jl_get_global_for c2 a1
        (jl_get_global_for c1 a1 (internTrace ops (initState true))).2).2.jl_value_to_llvm =
      (jl_get_global_for c1 a1 (internTrace ops (initState true))).2.jl_value_to_llvm ∧
    (jl_get_global_for c2 a1
        (jl_get_global_for c1 a1 (internTrace ops (initState true))).2).2.jl_sysimg_gvars.length =
      (jl_get_global_for c1 a1 (internTrace ops (initState true))).2.jl_sysimg_gvars.length ∧
    (jl_get_global_for c2 a2 (jl_get_global_for c1 a1 (internTrace ops (initState true))).2).1 ≠
      (jl_get_global_for c1 a1 (internTrace ops (initState true))).1 := by
  have him : (internTrace ops (initState true)).imaging_mode = true :=
    internTrace_imaging ops (initState true)
  have hsame := intern_second_same c1 c2 a1 _ him
  refine ⟨hsame, by rw [hsame], by rw [hsame], ?_⟩
  exact intern_distinct c1 c2 a1 a2 _ him
    (regNames_internTrace ops _ (regNames_initState true)) hne

theorem c6_amended_intern_idempotent_witness :
    (1 : Addr) ≠ 2 ∧
    (jl_get_global_for "b" 1 (jl_get_global_for "a" 1 (internTrace [] (initState true))).2 =
       jl_get_global_for "a" 1 (internTrace [] (initState true)) ∧
     (jl_get_global_for "b" 1
         (jl_get_global_for "a" 1 (internTrace [] (initState true))).2).2.jl_value_to_llvm =
       (jl_get_global_for "a" 1 (internTrace [] (initState true))).2.jl_value_to_llvm ∧
     (jl_get_global_for "b" 1
         (jl_get_global_for "a" 1 (internTrace [] (initState true))).2).2.jl_sysimg_gvars.length =
       (jl_get_global_for "a" 1 (internTrace [] (initState true))).2.jl_sysimg_gvars.length ∧
     (jl_get_global_for "b" 2 (jl_get_global_for "a" 1 (internTrace [] (initState true))).2).1 ≠
       (jl_get_global_for "a" 1 (internTrace [] (initState true))).1) :=
  ⟨by decide, c6_amended_intern_idempotent [] "a" "b" 1 2 (by decide)⟩

/-- C7: after a successful emission in persistence mode, the module holds one
constant array global per table whose elements are exactly the registered
symbol lists in order (so its length equals the number of registered entries);
every registry entry with index `i` sits at position `i - 1` of the globals
table; every specialization merged into the session has its recorded generic
index `fi` (and, when nonzero, its recorded specialized index `ci`) pointing
at exactly the function-table position `fi - 1` (resp. `ci - 1`) where its
entry was pushed; and every recorded function-table index is at least 1 and
within the table — index 0 never denotes a table element and marks an absent
specialized entry. -/
theorem c7_offset_table_layout (ops : List (String × Addr))
    (compile : MethodInstance → Nat → Option CompileResult) (fuel wc tiw : Nat)
    (methods : List MethodInstance) (req : DumpReq) (env : DumpEnv)
    (sy : Option (List Nat)) (d : jl_native_code_desc_t) (res : DumpResult)
    (s2 : AmbientState)
    (hd : (jl_create_native compile fuel wc tiw methods
            (internTrace ops (initState true))).desc = some d)
    (hr : jl_dump_native d req env sy (internTrace ops (initState true)) = (some res, s2)) :
    MGlobal.mk (GlobalValue.fixed "jl_sysimg_gvars")
        (GInit.addrtable d.jl_sysimg_gvars) true 0 ∈ res.module ∧
    MGlobal.mk (GlobalValue.fixed "jl_sysimg_fvars")
        (GInit.addrtable d.jl_sysimg_fvars) true 0 ∈ res.module ∧
    d.jl_sysimg_gvars = (internTrace ops (initState true)).jl_sysimg_gvars ∧
    (∀ p ∈ (internTrace ops (initState true)).jl_value_to_llvm,
      1 ≤ p.2.index ∧ d.jl_sysimg_gvars[p.2.index - 1]? = some p.2.gv) ∧
    (∀ mi r, (mi, r) ∈ (driverRun compile fuel wc tiw methods).emitted →
      ∃ ci fi, lookupMI d.jl_fvar_map mi = some (r.api, ci, fi) ∧
        1 ≤ fi ∧ d.jl_sysimg_fvars[fi - 1]? = some (fnGV r.decls.functionObject) ∧
        (ci = 0 ∨ (1 ≤ ci ∧
          d.jl_sysimg_fvars[ci - 1]? = some (fnGV r.decls.functionObject)))) ∧
    FvarMapBounds d.jl_fvar_map d.jl_sysimg_fvars.length := by
  have him : (internTrace ops (initState true)).imaging_mode = true :=
    internTrace_imaging ops (initState true)
  have hmod := dump_imaging_module d req env sy _ res s2 him hr
  have hmem := globaldata_mem d _ sy res.module hmod
  have hdesc := create_desc_some compile fuel wc tiw methods _ d hd
  obtain ⟨mst, hm, hfv, hfm, _⟩ := create_desc_merge compile fuel wc tiw methods _ d hd
  refine ⟨hmem.1, hmem.2.1, hdesc.1, ?_, ?_, hdesc.2⟩
  · intro p hp
    have hreg := regIdx_internTrace ops (initState true) (regIdx_initState true) p hp
    rw [hdesc.1]
    exact hreg
  · rw [hfv, hfm]
    exact mergeEmitted_layout _ _ _ hm (emitInv_driverRun compile fuel wc tiw methods).2

theorem c7_offset_table_layout_witness :
    (jl_create_native compileR1 0 1 0 [R1]
       (internTrace [("jl_global#", 1)] (initState true))).desc = some c4desc ∧
    jl_dump_native c4desc noDest allOpen none
       (internTrace [("jl_global#", 1)] (initState true)) =
      (some c8r1, { c4state with imaging_mode := false }) ∧
    (MGlobal.mk (GlobalValue.fixed "jl_sysimg_gvars")
        (GInit.addrtable c4desc.jl_sysimg_gvars) true 0 ∈ c8r1.module ∧
     MGlobal.mk (GlobalValue.fixed "jl_sysimg_fvars")
        (GInit.addrtable c4desc.jl_sysimg_fvars) true 0 ∈ c8r1.module ∧
     c4desc.jl_sysimg_gvars =
       (internTrace [("jl_global#", 1)] (initState true)).jl_sysimg_gvars ∧
     (∀ p ∈ (internTrace [("jl_global#", 1)] (initState true)).jl_value_to_llvm,
       1 ≤ p.2.index ∧ c4desc.jl_sysimg_gvars[p.2.index - 1]? = some p.2.gv) ∧
     (∀ mi r, (mi, r) ∈ (driverRun compileR1 0 1 0 [R1]).emitted →
       ∃ ci fi, lookupMI c4desc.jl_fvar_map mi = some (r.api, ci, fi) ∧
         1 ≤ fi ∧ c4desc.jl_sysimg_fvars[fi - 1]? = some (fnGV r.decls.functionObject) ∧
         (ci = 0 ∨ (1 ≤ ci ∧
           c4desc.jl_sysimg_fvars[ci - 1]? = some (fnGV r.decls.functionObject)))) ∧
     FvarMapBounds c4desc.jl_fvar_map c4desc.jl_sysimg_fvars.length) :=
  ⟨by decide, by decide,
   c7_offset_table_layout [("jl_global#", 1)] compileR1 0 1 0 [R1] noDest allOpen none
     c4desc c8r1 { c4state with imaging_mode := false } (by decide) (by decide)⟩

/-- C8: the persistence latch is one-shot — after any emission call that runs
its pipeline, `imaging_mode` is off, so a second emission call leaves the
module exactly as it was (no offset tables, high-water scalar, handle pointer
or payload globals are appended again, hence no duplicate symbols). -/
theorem c8_one_shot_latch (d1 d2 : jl_native_code_desc_t) (req1 req2 : DumpReq)
    (env1 env2 : DumpEnv) (sy1 sy2 : Option (List Nat)) (s : AmbientState)
    (r1 : DumpResult) (s1 : AmbientState)
    (h : jl_dump_native d1 req1 env1 sy1 s = (some r1, s1)) :
    s1.imaging_mode = false ∧
    jl_dump_native d2 req2 env2 sy2 s1 =
      (some ⟨d2.M, (buildPipeline req2 env2).1, (buildPipeline req2 env2).2⟩,
       { s1 with imaging_mode := false }) := by
  have hafter := dump_imaging_after d1 req1 env1 sy1 s r1 s1 h
  exact ⟨hafter, dump_noimaging d2 req2 env2 sy2 s1 hafter⟩

theorem c8_one_shot_latch_witness :
    jl_dump_native c4desc noDest allOpen none c4state =
      (some c8r1, { c4state with imaging_mode := false }) ∧
    (({ c4state with imaging_mode := false } : AmbientState).imaging_mode = false ∧
     jl_dump_native emptyDesc noDest allOpen none { c4state with imaging_mode := false } =
       (some ⟨emptyDesc.M, (buildPipeline noDest allOpen).1, (buildPipeline noDest allOpen).2⟩,
        { { c4state with imaging_mode := false } with imaging_mode := false })) :=
  ⟨by decide,
   c8_one_shot_latch c4desc emptyDesc noDest noDest allOpen allOpen none none
     c4state c8r1 { c4state with imaging_mode := false } (by decide)⟩

/-- C9: each requested output destination is opened independently — a writer
is in the pipeline exactly when its destination was requested and its file
opened (and, for the object writer, the target supports object emission), a
failed open or unsupported format only contributes a diagnostic, and the
emission call itself still succeeds whatever the outcomes. -/
theorem c9_destinations_independent (req : DumpReq) (env : DumpEnv)
    (d : jl_native_code_desc_t) (sy : Option (List Nat)) :
    (jl_dump_native d req env sy (initState false)).1 =
      some ⟨d.M, (buildPipeline req env).1, (buildPipeline req env).2⟩ ∧
    (Stage.unoptWriter ∈ (buildPipeline req env).1 ↔
      req.unopt_bc = true ∧ env.openUnopt = true) ∧
    (Stage.bcWriter ∈ (buildPipeline req env).1 ↔
      req.bc = true ∧ env.openBC = true) ∧
    (Stage.objWriter ∈ (buildPipeline req env).1 ↔
      req.obj = true ∧ env.openObj = true ∧ env.objSupported = true) ∧
    (Stage.optPasses ∈ (buildPipeline req env).1 ↔ (req.bc = true ∨ req.obj = true)) ∧
    ("ERROR: failed to open --output-unopt-bc file" ∈ (buildPipeline req env).2 ↔
      req.unopt_bc = true ∧ env.openUnopt = false) ∧
    ("ERROR: failed to open --output-bc file" ∈ (buildPipeline req env).2 ↔
      req.bc = true ∧ env.openBC = false) ∧
    ("ERROR: failed to open --output-o file" ∈ (buildPipeline req env).2 ↔
      req.obj = true ∧ env.openObj = false) ∧
    ("ERROR: target does not support generation of object files" ∈ (buildPipeline req env).2 ↔
      req.obj = true ∧ env.openObj = true ∧ env.objSupported = false) := by
  obtain ⟨u, b, o⟩ := req
  obtain ⟨eu, eb, eo, es⟩ := env
  refine ⟨?_, ?_⟩
  · exact congrArg Prod.fst
      (dump_noimaging d ⟨u, b, o⟩ ⟨eu, eb, eo, es⟩ sy (initState false) rfl)
  · cases u <;> cases b <;> cases o <;> cases eu <;> cases eb <;> cases eo <;> cases es <;>
      decide

/-- C10: when the queried specialization is absent from the session's
instance-to-index map, `jl_get_function_id` leaves all three output locations
exactly as they were — no sentinel is written and no error is signalled. -/
theorem c10_absent_lookup_frame (d : jl_native_code_desc_t) (mi : MethodInstance)
    (api func_idx specfunc_idx : Nat)
    (h : lookupMI d.jl_fvar_map mi = none) :
    jl_get_function_id d mi api func_idx specfunc_idx = (api, func_idx, specfunc_idx) := by
  unfold jl_get_function_id
  rw [h]

theorem c10_absent_lookup_frame_witness :
    lookupMI emptyDesc.jl_fvar_map R1 = none ∧
    jl_get_function_id emptyDesc R1 3 4 5 = (3, 4, 5) :=
  ⟨by decide, c10_absent_lookup_frame emptyDesc R1 3 4 5 (by decide)⟩

end AotCompile
